import Mathlib

/-
Verification of the go-sio line-filtering stream reader (s_reader.go,
reader_closer.go) against its specification.

Bytes are modelled as `Char` values and byte strings as `List Char`.  The
upstream `io.Reader` is modelled by the data it will deliver plus an optional
terminal source error (`none` = clean end-of-data).  `bufio.Scanner` with the
custom `split` function is modelled by the record list it produces
(`splitRecords`), and `bytes.Buffer` by the list of bytes it holds.
`StreamReader.Read` is modelled as a state transition returning the bytes
delivered, the Go error value returned (`none` = nil error), and the new
state of the reader.
-/

namespace GoSio

/-- Byte strings are modelled as lists of characters. -/
abbrev Str := List Char

/-- Go error values as seen by callers of this package: the `io.EOF`
sentinel, the package's `ErrNilReader`, or an arbitrary caller-supplied
error (a filter error or an upstream source error) drawn from `ε`. -/
inductive GoErr (ε : Type) where
  | eof
  | errNilReader
  | user (e : ε)
deriving DecidableEq, Repr

/-- Embedding of `StringLineFilter`: a function from one record's text to an
output string and an optional error. -/
abbrev Filter (ε : Type) := Str → Str × Option ε

/-- Embedding of `NopFilter`: returns the input unchanged and never errors. -/
def NopFilter {ε : Type} : Filter ε := fun s => (s, none)

/-- Embedding of the `split` function of s_reader.go: given the buffered
data and the at-end-of-file flag, return the advance count and the token
(if any).  The token retains its trailing newline. -/
def split (data : Str) (atEOF : Bool) : Nat × Option Str :=
  if atEOF = true ∧ data = [] then (0, none)
  else
    match data.findIdx? (fun c => c = '\n') with
    | some i => (i + 1, some (data.take (i + 1)))
    | none => if atEOF then (data.length, some data) else (0, none)

/-- Helper for `splitRecords`: scans the data accumulating the current
record (in reverse) and cutting a record after each newline; a final
nonempty unterminated run forms the last record. -/
def splitRecAux : Str → Str → List Str
  | acc, [] => if acc = [] then [] else [acc.reverse]
  | acc, c :: cs =>
    if c = '\n' then (c :: acc).reverse :: splitRecAux [] cs
    else splitRecAux (c :: acc) cs

/-- The record sequence that `bufio.Scanner` configured with `split`
produces over the full data of the source: newline-terminated records, the
newline retained, plus a final unterminated record when the data does not
end in a newline.  `scanTokens_eq_splitRecords` below proves this agrees
with iterating the embedded `split` function. -/
def splitRecords (data : Str) : List Str := splitRecAux [] data

/-- Iterating the `split` function over the data at end-of-file, exactly as
`bufio.Scanner.Scan` does once all data is buffered: emit the token and
advance, until `split` yields no token. -/
def scanTokens : Nat → Str → List Str
  | 0, _ => []
  | fuel + 1, data =>
    match split data true with
    | (_, none) => []
    | (adv, some tok) => tok :: scanTokens fuel (data.drop adv)

/-- Embedding of the `for` loop of `StreamReader.Read` (s_reader.go lines
49-63), entered with `existsData = true`: repeatedly `Scan` the next
record and apply the filter, until a record is accepted (nonempty filter
output), the filter errors, or the records run out.  Returns the records
not yet scanned, the new `existsData` flag, the bytes to append to the
carry-over buffer, and the filter error if one occurred. -/
def scanLoop {ε : Type} (f : Filter ε) : List Str → List Str × Bool × Str × Option ε
  | [] => ([], false, [], none)
  | r :: rs =>
    match f r with
    | (_, some e) => (rs, true, [], some e)
    | (s, none) => if s = [] then scanLoop f rs else (rs, true, s, none)

/-- Embedding of `bytes.Buffer.Read`: on an empty buffer return 0 bytes
with a nil error when the destination is empty and `io.EOF` otherwise; on
a nonempty buffer deliver up to `n` bytes with a nil error.  Returns the
bytes delivered, the error, and the bytes remaining in the buffer. -/
def bufferRead (ε : Type) (buf : Str) (n : Nat) : Str × Option (GoErr ε) × Str :=
  if buf = [] then
    if n = 0 then ([], none, []) else ([], some GoErr.eof, [])
  else (buf.take n, none, buf.drop n)

/-- Embedding of the `StreamReader` struct: the records the scanner has not
yet returned, the scanner's recorded non-EOF source error (`scanner.Err()`),
the filter, the carry-over buffer, and the `existsData` flag. -/
structure StreamReader (ε : Type) where
  records : List Str
  scanErr : Option ε
  filter : Filter ε
  buffer : Str
  existsData : Bool

/-- Embedding of `StreamReader.Read` on a non-nil receiver (s_reader.go
lines 42-74): run the scan/filter loop while `existsData` holds, then, if
scanning ended, surface `scanner.Err()`; on any error return zero bytes
and the error, otherwise read from the carry-over buffer.  The destination
buffer is represented by its length `n`; the delivered bytes are returned
explicitly. -/
def StreamReader.read {ε : Type} (sr : StreamReader ε) (n : Nat) :
    (Str × Option (GoErr ε)) × StreamReader ε :=
  let step := if sr.existsData then scanLoop sr.filter sr.records
              else (sr.records, false, ([] : Str), (none : Option ε))
  let buf := sr.buffer ++ step.2.2.1
  let err : Option (GoErr ε) :=
    match step.2.2.2 with
    | some e => some (GoErr.user e)
    | none => if step.2.1 then none else sr.scanErr.map GoErr.user
  match err with
  | some e =>
      (([], some e),
       { records := step.1, scanErr := sr.scanErr, filter := sr.filter,
         buffer := buf, existsData := step.2.1 })
  | none =>
      let br := bufferRead ε buf n
      ((br.1, br.2.1),
       { records := step.1, scanErr := sr.scanErr, filter := sr.filter,
         buffer := br.2.2, existsData := step.2.1 })

/-- A freshly constructed stream over a present source that will deliver
`data` and then report `se` (`none` = clean end-of-data), with filter `f`. -/
def streamOf {ε : Type} (data : Str) (se : Option ε) (f : Filter ε) : StreamReader ε :=
  { records := splitRecords data, scanErr := se, filter := f,
    buffer := [], existsData := true }

/-- Embedding of `NewStreamReader`: an absent source yields an absent
stream (`none`, modelling the nil pointer); an absent filter is replaced
by `NopFilter`. -/
def NewStreamReader {ε : Type} (src : Option (Str × Option ε)) (f : Option (Filter ε)) :
    Option (StreamReader ε) :=
  match src with
  | none => none
  | some (data, se) => some (streamOf data se (f.getD NopFilter))

/-- Embedding of `Read` on the possibly-nil `*StreamReader` handle: a nil
receiver returns zero bytes and `ErrNilReader`. -/
def readOpt {ε : Type} : Option (StreamReader ε) → Nat →
    (Str × Option (GoErr ε)) × Option (StreamReader ε)
  | none, _ => (([], some GoErr.errNilReader), none)
  | some sr, n => ((sr.read n).1, some (sr.read n).2)

/-- Driver modelling `io.ReadAll`-style consumption with a fixed
destination size `n` per call: accumulate delivered bytes until a Read
call returns a non-nil error, and report that error (clean end of stream
is `GoErr.eof`).  `fuel` bounds the number of calls. -/
def readAllAux {ε : Type} : Nat → StreamReader ε → Nat → Str → Str × Option (GoErr ε)
  | 0, _, _, acc => (acc, none)
  | fuel + 1, sr, n, acc =>
    match sr.read n with
    | ((out, some e), _) => (acc ++ out, some e)
    | ((out, none), sr') => readAllAux fuel sr' n (acc ++ out)

/-- Read the stream to completion with destination size `n` per call. -/
def readAll {ε : Type} (fuel : Nat) (sr : StreamReader ε) (n : Nat) :
    Str × Option (GoErr ε) :=
  readAllAux fuel sr n []

namespace Json

/-- The left brace character, code 123. -/
def lbrace : Char := Char.ofNat 123

/-- The right brace character, code 125. -/
def rbrace : Char := Char.ofNat 125

/-- Whitespace characters accepted by the `encoding/json` scanner: space,
tab, carriage return, newline. -/
def isSpace (c : Char) : Bool := c = ' ' || c = '\t' || c = '\r' || c = '\n'

/-- Drop leading JSON whitespace. -/
def skipWS : Str → Str
  | [] => []
  | c :: cs => if isSpace c then skipWS cs else c :: cs

/-- Decimal digit test. -/
def isDigit (c : Char) : Bool := '0' ≤ c && c ≤ '9'

/-- Hexadecimal digit test. -/
def isHexDigit (c : Char) : Bool :=
  isDigit c || ('a' ≤ c && c ≤ 'f') || ('A' ≤ c && c ≤ 'F')

/-- Consume the body of a JSON string after the opening quote, including
the closing quote: any character of code at least 0x20 other than quote
and backslash, with the RFC 8259 escape sequences.  Returns the remaining
input, or `none` if the string is malformed. -/
def strBody : Nat → Str → Option Str
  | 0, _ => none
  | _, [] => none
  | fuel + 1, c :: cs =>
    if c = '"' then some cs
    else if c = '\\' then
      match cs with
      | [] => none
      | e :: cs2 =>
        if e = 'u' then
          match cs2 with
          | a :: b :: c3 :: d :: rest =>
            if isHexDigit a && isHexDigit b && isHexDigit c3 && isHexDigit d then
              strBody fuel rest
            else none
          | _ => none
        else if e = '"' || e = '\\' || e = '/' || e = 'b' || e = 'f' ||
                e = 'n' || e = 'r' || e = 't' then strBody fuel cs2
        else none
    else if c.toNat < 32 then none
    else strBody fuel cs

/-- Consume the literal characters `lit` from the front of the input. -/
def dropLit : Str → Str → Option Str
  | [], cs => some cs
  | _ :: _, [] => none
  | l :: ls, c :: cs => if c = l then dropLit ls cs else none

/-- Consume the integer part of a JSON number: `0`, or a nonzero digit
followed by any digits. -/
def parseInt : Str → Option Str
  | [] => none
  | c :: r =>
    if c = '0' then some r
    else if isDigit c then some (r.dropWhile isDigit) else none

/-- Consume an optional fraction part: a dot followed by one or more
digits. -/
def parseFrac : Str → Option Str
  | '.' :: r =>
    match r with
    | c :: r2 => if isDigit c then some (r2.dropWhile isDigit) else none
    | [] => none
  | cs => some cs

/-- Consume an optional exponent part: `e` or `E`, an optional sign, and
one or more digits. -/
def parseExp : Str → Option Str
  | [] => some []
  | c :: r =>
    if c = 'e' || c = 'E' then
      let r1 := match r with
                | s :: r2 => if s = '+' || s = '-' then r2 else r
                | [] => r
      match r1 with
      | d :: r2 => if isDigit d then some (r2.dropWhile isDigit) else none
      | [] => none
    else some (c :: r)

/-- Consume a JSON number: optional minus sign, integer part, optional
fraction, optional exponent. -/
def parseNumber (cs : Str) : Option Str :=
  let cs0 := match cs with
             | '-' :: r => r
             | _ => cs
  (parseInt cs0).bind parseFrac |>.bind parseExp

/-- The `encoding/json` scanner's nesting bound: `pushParseState` fails
once more than 10000 containers are open at the same time. -/
def maxNestingDepth : Nat := 10000

mutual

/-- Consume one JSON value.  `depth` is the number of containers
currently open; opening a further `\x7b` or `[` fails once it would
exceed `maxNestingDepth`, as in the scanner's `pushParseState`.  `fuel`
only bounds the recursion for termination; `valid` supplies enough of it
that it never runs out on any input (see the accounting there). -/
def parseValue : Nat → Nat → Str → Option Str
  | 0, _, _ => none
  | fuel + 1, depth, cs =>
    match cs with
    | [] => none
    | c :: rest =>
      if c = lbrace then
        if maxNestingDepth < depth + 1 then none
        else parseObjRest fuel (depth + 1) (skipWS rest)
      else if c = '[' then
        if maxNestingDepth < depth + 1 then none
        else parseArrRest fuel (depth + 1) (skipWS rest)
      else if c = '"' then strBody (rest.length + 1) rest
      else if c = 't' then dropLit ['r', 'u', 'e'] rest
      else if c = 'f' then dropLit ['a', 'l', 's', 'e'] rest
      else if c = 'n' then dropLit ['u', 'l', 'l'] rest
      else if c = '-' || isDigit c then parseNumber (c :: rest)
      else none
termination_by structural fuel _ _ => fuel

/-- Consume the remainder of a JSON object after the opening brace and any
whitespace: either the closing brace or a member list. -/
def parseObjRest : Nat → Nat → Str → Option Str
  | 0, _, _ => none
  | fuel + 1, depth, cs =>
    match cs with
    | [] => none
    | c :: rest => if c = rbrace then some rest else parseMember fuel depth (c :: rest)
termination_by structural fuel _ _ => fuel

/-- Consume one `string : value` member and the members after it, up to
and including the closing brace. -/
def parseMember : Nat → Nat → Str → Option Str
  | 0, _, _ => none
  | fuel + 1, depth, cs =>
    match cs with
    | '"' :: rest =>
      match strBody (rest.length + 1) rest with
      | none => none
      | some afterKey =>
        match skipWS afterKey with
        | ':' :: afterColon =>
          match parseValue fuel depth (skipWS afterColon) with
          | none => none
          | some afterVal =>
            match skipWS afterVal with
            | ',' :: afterComma => parseMember fuel depth (skipWS afterComma)
            | c :: rest2 => if c = rbrace then some rest2 else none
            | [] => none
        | _ => none
    | _ => none
termination_by structural fuel _ _ => fuel

/-- Consume the remainder of a JSON array after the opening bracket and any
whitespace: either the closing bracket or an element list. -/
def parseArrRest : Nat → Nat → Str → Option Str
  | 0, _, _ => none
  | fuel + 1, depth, cs =>
    match cs with
    | ']' :: rest => some rest
    | _ => parseElem fuel depth cs
termination_by structural fuel _ _ => fuel

/-- Consume one array element and the elements after it, up to and
including the closing bracket. -/
def parseElem : Nat → Nat → Str → Option Str
  | 0, _, _ => none
  | fuel + 1, depth, cs =>
    match parseValue fuel depth cs with
    | none => none
    | some afterVal =>
      match skipWS afterVal with
      | ',' :: afterComma => parseElem fuel depth (skipWS afterComma)
      | ']' :: rest => some rest
      | _ => none
termination_by structural fuel _ _ => fuel

end

/-- Embedding of `encoding/json.Valid`: the input is one well-formed JSON
value surrounded by optional whitespace, with container nesting bounded by
`maxNestingDepth` as in the scanner.  Fuel accounting: every fuel
decrement is chargeable to an input character — at most 3 to each `[`
(`parseValue` of the nested element, `parseArrRest`, `parseElem`), at
most 2 to each `\x7b` (`parseObjRest`, `parseMember`), at most 2 to each
comma, at most 1 to each colon — plus 1 for the top-level `parseValue`,
so `3 * s.length + 3` never runs out on any input and the result is
determined by the input alone. -/
def valid (s : Str) : Bool :=
  match parseValue (3 * s.length + 3) 0 (skipWS s) with
  | some rest => skipWS rest = []
  | none => false

/-- Spot checks of the validator against `encoding/json.Valid` on nested
containers (the fuel must not starve), literals, numbers, strings with
escapes, surrounding whitespace, and malformed inputs. -/
theorem valid_spot_checks :
    valid ("[[0]]".toList) = true
    ∧ valid ("[[[0]]]\n".toList) = true
    ∧ valid ("[[[[[[[[[[1,2],3],4],5],6],7],8],9],10],11]".toList) = true
    ∧ valid ("\x7b\"a\": [1, -2.5e+3, \"x\\n\", true, false, null], \"b\": \x7b\"c\": \x7b\x7d\x7d\x7d".toList) = true
    ∧ valid (" \t\r\n-12.5e-7 \t\r\n".toList) = true
    ∧ valid ("\"\\u0041b\"".toList) = true
    ∧ valid ("".toList) = false
    ∧ valid (" \n ".toList) = false
    ∧ valid ("01".toList) = false
    ∧ valid ("1,".toList) = false
    ∧ valid ("[1,]".toList) = false
    ∧ valid ("[[0]".toList) = false
    ∧ valid ("\x7b\"a\":1\x7d\x7b\x7d".toList) = false
    ∧ valid ("\x7binvalid json\x7d".toList) = false
    ∧ valid ("truee".toList) = false
    ∧ valid ("\"\\u12Zf\"".toList) = false := by
  decide

end Json

/-- Embedding of the filter installed by `NewJSONFilterReadCloser`
(s_reader.go lines 90-103): a record whose text is valid JSON passes
unchanged, any other record maps to the empty string, and no error is ever
returned. -/
def jsonLineFilter {ε : Type} : Filter ε :=
  fun s => if Json.valid s then (s, none) else ([], none)

/-- Embedding of `NewJSONFilterReadCloser`: the stream it returns reads
exactly like a `StreamReader` over the same source with `jsonLineFilter`
(the `ReadCloser` wrapper only adds a `Close` method, which forwards to
the source and does not affect reading). -/
def NewJSONFilterReadCloser {ε : Type} (src : Option (Str × Option ε)) :
    Option (StreamReader ε) :=
  NewStreamReader src (some jsonLineFilter)

end GoSio

namespace GoSio

/-! Basic properties of the record segmentation. -/

/-- Concatenating the records produced by `splitRecAux` restores the
pending accumulator followed by the data. -/
theorem splitRecAux_flatten (data : Str) :
    ∀ acc : Str, (splitRecAux acc data).flatten = acc.reverse ++ data := by
  induction data with
  | nil =>
      intro acc
      by_cases h : acc = []
      · simp [splitRecAux, h]
      · simp [splitRecAux, h]
  | cons c cs ih =>
      intro acc
      by_cases h : c = '\n'
      · simp [splitRecAux, h, ih]
      · simp [splitRecAux, h, ih]

/-- Record segmentation is lossless: the records concatenate back to the
original data. -/
theorem splitRecords_flatten (data : Str) : (splitRecords data).flatten = data := by
  simpa using splitRecAux_flatten data []

/-- No record produced by `splitRecAux` is empty. -/
theorem splitRecAux_ne_nil (data : Str) :
    ∀ acc r, r ∈ splitRecAux acc data → r ≠ [] := by
  induction data with
  | nil =>
      intro acc r hr
      by_cases h : acc = []
      · simp [splitRecAux, h] at hr
      · simp [splitRecAux, h] at hr
        subst hr
        simpa using h
  | cons c cs ih =>
      intro acc r hr
      by_cases h : c = '\n'
      · simp [splitRecAux, h] at hr
        rcases hr with hr | hr
        · subst hr; simp
        · exact ih [] r hr
      · simp [splitRecAux, h] at hr
        exact ih (c :: acc) r hr

/-- No record produced by `splitRecords` is empty. -/
theorem splitRecords_ne_nil (data : Str) : ∀ r ∈ splitRecords data, r ≠ [] :=
  fun r hr => splitRecAux_ne_nil data [] r hr

/-! Characterizations of the scan/filter loop. -/

/-- On an exhausted scanner the loop stops and clears `existsData`. -/
theorem scanLoop_nil {ε : Type} (f : Filter ε) : scanLoop f [] = ([], false, [], none) :=
  rfl

/-- A record on which the filter errors is consumed; the loop stops with
the error, leaving `existsData` set. -/
theorem scanLoop_err {ε : Type} (f : Filter ε) (r : Str) (rs : List Str) (e : ε)
    (h : (f r).2 = some e) : scanLoop f (r :: rs) = (rs, true, [], some e) := by
  rcases hfr : f r with ⟨s, oe⟩
  rw [hfr] at h
  simp at h
  subst h
  simp [scanLoop, hfr]

/-- A record the filter maps to the empty string is dropped and the loop
continues with the remaining records. -/
theorem scanLoop_skip {ε : Type} (f : Filter ε) (r : Str) (rs : List Str)
    (h2 : (f r).2 = none) (h1 : (f r).1 = []) :
    scanLoop f (r :: rs) = scanLoop f rs := by
  rcases hfr : f r with ⟨s, oe⟩
  rw [hfr] at h1 h2
  simp at h1 h2
  subst h1; subst h2
  simp [scanLoop, hfr]

/-- A record with nonempty filter output is accepted: the loop stops,
queueing the output, with `existsData` still set. -/
theorem scanLoop_acc {ε : Type} (f : Filter ε) (r : Str) (rs : List Str)
    (h2 : (f r).2 = none) (h1 : (f r).1 ≠ []) :
    scanLoop f (r :: rs) = (rs, true, (f r).1, none) := by
  rcases hfr : f r with ⟨s, oe⟩
  rw [hfr] at h1 h2
  simp at h1 h2
  subst h2
  simp [scanLoop, hfr, h1]

/-- With a filter that never errors, the loop never reports an error. -/
theorem scanLoop_noErr {ε : Type} (f : Filter ε) (hf : ∀ r, (f r).2 = none) :
    ∀ rs, (scanLoop f rs).2.2.2 = none := by
  intro rs
  induction rs with
  | nil => rfl
  | cons r rs ih =>
      by_cases h1 : (f r).1 = []
      · rw [scanLoop_skip f r rs (hf r) h1]; exact ih
      · rw [scanLoop_acc f r rs (hf r) h1]

/-- The bytes the loop appends to the carry-over buffer are either nothing
or the filter output of one of the pending records. -/
theorem scanLoop_app {ε : Type} (f : Filter ε) :
    ∀ rs, (scanLoop f rs).2.2.1 = [] ∨
      ∃ r ∈ rs, (scanLoop f rs).2.2.1 = (f r).1 := by
  intro rs
  induction rs with
  | nil => exact Or.inl rfl
  | cons r rs ih =>
      rcases hfr : f r with ⟨s, oe⟩
      cases oe with
      | some e =>
          rw [scanLoop_err f r rs e (by rw [hfr])]
          exact Or.inl rfl
      | none =>
          by_cases h1 : s = []
          · rw [scanLoop_skip f r rs (by rw [hfr]) (by rw [hfr]; exact h1)]
            rcases ih with h | ⟨r', hr', h⟩
            · exact Or.inl h
            · exact Or.inr ⟨r', List.mem_cons_of_mem _ hr', h⟩
          · rw [scanLoop_acc f r rs (by rw [hfr]) (by rw [hfr]; exact h1)]
            exact Or.inr ⟨r, List.mem_cons_self _ _, rfl⟩

/-! Faithfulness of `splitRecords` to the `split` function: iterating
`split` over the full data, as the scanner does, produces exactly
`splitRecords`. -/

/-- The newline search fails on newline-free data. -/
theorem findIdx_newline_none (data : Str) (h : ∀ c ∈ data, ¬(c = '\n')) :
    data.findIdx? (fun c => c = '\n') = none := by
  induction data with
  | nil => rfl
  | cons c cs ih =>
      rw [List.findIdx?_cons, List.findIdx?_succ]
      have hc : ¬(c = '\n') := h c (List.mem_cons_self _ _)
      simp [hc, ih (fun x hx => h x (List.mem_cons_of_mem _ hx))]

/-- The newline search finds the first newline. -/
theorem findIdx_newline_some (pre : Str) (rest : Str)
    (hpre : ∀ c ∈ pre, ¬(c = '\n')) :
    (pre ++ '\n' :: rest).findIdx? (fun c => c = '\n') = some pre.length := by
  induction pre with
  | nil => simp [List.findIdx?_cons]
  | cons p ps ih =>
      rw [List.cons_append, List.findIdx?_cons, List.findIdx?_succ]
      have hp : ¬(p = '\n') := hpre p (List.mem_cons_self _ _)
      simp [hp, ih (fun x hx => hpre x (List.mem_cons_of_mem _ hx))]

/-- At end of input with newline-free nonempty data, `split` emits all of
it as the final token. -/
theorem split_no_newline (data : Str) (hne : data ≠ [])
    (h : ∀ c ∈ data, ¬(c = '\n')) :
    split data true = (data.length, some data) := by
  simp [split, hne, findIdx_newline_none data h]

/-- With a newline present, `split` emits the data up to and including the
first newline. -/
theorem split_at_newline (pre rest : Str) (hpre : ∀ c ∈ pre, ¬(c = '\n')) :
    split (pre ++ '\n' :: rest) true = (pre.length + 1, some (pre ++ ['\n'])) := by
  have hne : ¬(pre ++ '\n' :: rest = []) := by simp
  simp only [split, findIdx_newline_some pre rest hpre, hne, and_false, if_false]
  rw [List.take_append]
  simp

/-- `splitRecAux` on newline-free data: the accumulator and the data form
the one final record (or none at all if both are empty). -/
theorem splitRecAux_no_newline (data : Str) (h : ∀ c ∈ data, ¬(c = '\n')) :
    ∀ acc, splitRecAux acc data
      = if acc.reverse ++ data = [] then [] else [acc.reverse ++ data] := by
  induction data with
  | nil =>
      intro acc
      by_cases ha : acc = []
      · subst ha; simp [splitRecAux]
      · simp [splitRecAux, ha, List.reverse_eq_nil_iff]
  | cons c cs ih =>
      intro acc
      have hc : ¬(c = '\n') := h c (List.mem_cons_self _ _)
      rw [splitRecAux, if_neg hc, ih (fun x hx => h x (List.mem_cons_of_mem _ hx))]
      simp

/-- `splitRecAux` at the first newline: the accumulator and the data up to
the newline form one record, and scanning restarts after it. -/
theorem splitRecAux_at_newline (pre : Str) (rest : Str)
    (hpre : ∀ c ∈ pre, ¬(c = '\n')) :
    ∀ acc, splitRecAux acc (pre ++ '\n' :: rest)
      = (acc.reverse ++ pre ++ ['\n']) :: splitRecAux [] rest := by
  induction pre with
  | nil =>
      intro acc
      simp [splitRecAux]
  | cons p ps ih =>
      intro acc
      have hp : ¬(p = '\n') := hpre p (List.mem_cons_self _ _)
      rw [List.cons_append, splitRecAux, if_neg hp,
        ih (fun x hx => hpre x (List.mem_cons_of_mem _ hx))]
      simp

/-- Every list of characters either has no newline or splits at its first
newline. -/
theorem newline_decomp (data : Str) :
    (∀ c ∈ data, ¬(c = '\n'))
    ∨ ∃ pre rest, data = pre ++ '\n' :: rest ∧ ∀ c ∈ pre, ¬(c = '\n') := by
  induction data with
  | nil => exact Or.inl (by simp)
  | cons c cs ih =>
      by_cases hc : c = '\n'
      · subst hc
        exact Or.inr ⟨[], cs, rfl, by simp⟩
      · rcases ih with h | ⟨pre, rest, heq, hpre⟩
        · refine Or.inl ?_
          intro x hx
          rcases List.mem_cons.mp hx with hx | hx
          · subst hx; exact hc
          · exact h x hx
        · refine Or.inr ⟨c :: pre, rest, by rw [heq, List.cons_append], ?_⟩
          intro x hx
          rcases List.mem_cons.mp hx with hx | hx
          · subst hx; exact hc
          · exact hpre x hx

/-- Iterating the embedded `split` function, exactly as the scanner does,
produces the record list `splitRecords`: the record abstraction used by
the stream model is faithful to the `split` function of s_reader.go. -/
theorem scanTokens_eq_splitRecords :
    ∀ fuel data, data.length < fuel → scanTokens fuel data = splitRecords data := by
  intro fuel
  induction fuel with
  | zero => intro data h; omega
  | succ fuel ih =>
      intro data hlen
      by_cases hdata : data = []
      · subst hdata; rfl
      · rcases newline_decomp data with h | ⟨pre, rest, heq, hpre⟩
        · rw [scanTokens, split_no_newline data hdata h]
          show data :: scanTokens fuel (List.drop data.length data) = splitRecords data
          rw [List.drop_length]
          have h0 : (0 : Nat) < fuel := by
            have : data.length ≥ 1 := List.length_pos.mpr hdata
            omega
          rw [ih [] (by simpa using h0), show splitRecords [] = [] from rfl]
          unfold splitRecords
          rw [splitRecAux_no_newline data h []]
          simp [hdata]
        · subst heq
          rw [scanTokens, split_at_newline pre rest hpre]
          show (pre ++ ['\n'])
              :: scanTokens fuel (List.drop (pre.length + 1) (pre ++ '\n' :: rest))
            = splitRecords (pre ++ '\n' :: rest)
          have hdrop : List.drop (pre.length + 1) (pre ++ '\n' :: rest) = rest := by
            rw [List.drop_append]
            simp
          rw [hdrop]
          have hrest : rest.length < fuel := by
            simp only [List.length_append, List.length_cons] at hlen
            omega
          rw [ih rest hrest]
          unfold splitRecords
          rw [splitRecAux_at_newline pre rest hpre []]
          simp

/-! Step lemmas for `StreamReader.read`, one per shape of the state. -/

/-- Reading when the next record is accepted: the filter output is
appended to the carry-over buffer, up to `n` bytes are delivered from the
front, and the stream stays live. -/
theorem read_acc {ε : Type} (f : Filter ε) (r : Str) (rs : List Str) (se : Option ε)
    (b : Str) (n : Nat) (h2 : (f r).2 = none) (h1 : (f r).1 ≠ []) :
    StreamReader.read ⟨r :: rs, se, f, b, true⟩ n =
      (((b ++ (f r).1).take n, none),
       ⟨rs, se, f, (b ++ (f r).1).drop n, true⟩) := by
  simp only [StreamReader.read, scanLoop_acc f r rs h2 h1, bufferRead]
  simp [h1]

/-- Reading when the next record is dropped by the filter behaves exactly
like reading with that record already consumed. -/
theorem read_skip {ε : Type} (f : Filter ε) (r : Str) (rs : List Str) (se : Option ε)
    (b : Str) (n : Nat) (h2 : (f r).2 = none) (h1 : (f r).1 = []) :
    StreamReader.read ⟨r :: rs, se, f, b, true⟩ n =
      StreamReader.read ⟨rs, se, f, b, true⟩ n := by
  simp only [StreamReader.read, scanLoop_skip f r rs h2 h1, if_true]

/-- Reading when the filter errors on the next record: the record is
consumed, zero bytes are delivered, the error is surfaced, the carry-over
buffer is untouched, and `existsData` remains set. -/
theorem read_filter_err {ε : Type} (f : Filter ε) (r : Str) (rs : List Str)
    (se : Option ε) (b : Str) (n : Nat) (e : ε) (h : (f r).2 = some e) :
    StreamReader.read ⟨r :: rs, se, f, b, true⟩ n =
      (([], some (GoErr.user e)), ⟨rs, se, f, b, true⟩) := by
  simp only [StreamReader.read, scanLoop_err f r rs e h]
  simp

/-- Reading once the scanner is exhausted with a recorded source error:
zero bytes and the source error, regardless of the carry-over buffer, and
the state reached is a fixed point that keeps returning the same error. -/
theorem read_source_err {ε : Type} (f : Filter ε) (se : ε) (b : Str) (ed : Bool)
    (n : Nat) :
    StreamReader.read ⟨[], some se, f, b, ed⟩ n =
      (([], some (GoErr.user se)), ⟨[], some se, f, b, false⟩) := by
  cases ed <;> simp [StreamReader.read, scanLoop_nil]

/-- Reading an exhausted, error-free stream whose buffer is empty: zero
bytes, with `io.EOF` unless the destination itself is empty. -/
theorem read_eof {ε : Type} (f : Filter ε) (rs : List Str) (ed : Bool) (n : Nat)
    (hrs : ed = true → rs = []) :
    StreamReader.read ⟨rs, none, f, [], ed⟩ n =
      (([], if n = 0 then none else some GoErr.eof),
       ⟨if ed then [] else rs, none, f, [], false⟩) := by
  cases ed with
  | false => cases n <;> simp [StreamReader.read, bufferRead]
  | true =>
      rw [hrs rfl]
      cases n <;> simp [StreamReader.read, scanLoop_nil, bufferRead]

/-- Reading an exhausted, error-free stream with a nonempty buffer: the
front of the buffer is delivered with a nil error. -/
theorem read_drain {ε : Type} (f : Filter ε) (rs : List Str) (ed : Bool) (b : Str)
    (n : Nat) (hb : b ≠ []) (hrs : ed = true → rs = []) :
    StreamReader.read ⟨rs, none, f, b, ed⟩ n =
      ((b.take n, none), ⟨if ed then [] else rs, none, f, b.drop n, false⟩) := by
  cases ed with
  | false => simp [StreamReader.read, bufferRead, hb]
  | true =>
      rw [hrs rfl]
      simp [StreamReader.read, scanLoop_nil, bufferRead, hb]

/-! Step lemmas for the `readAll` driver. -/

/-- A Read call that reports an error stops the driver. -/
theorem readAllAux_step_err {ε : Type} (fuel : Nat) (sr : StreamReader ε) (n : Nat)
    (acc out : Str) (e : GoErr ε) (st : StreamReader ε)
    (h : sr.read n = ((out, some e), st)) :
    readAllAux (fuel + 1) sr n acc = (acc ++ out, some e) := by
  simp [readAllAux, h]

/-- A Read call with a nil error lets the driver continue on the new
state, with the delivered bytes appended. -/
theorem readAllAux_step_ok {ε : Type} (fuel : Nat) (sr : StreamReader ε) (n : Nat)
    (acc out : Str) (st : StreamReader ε)
    (h : sr.read n = ((out, none), st)) :
    readAllAux (fuel + 1) sr n acc = readAllAux fuel st n (acc ++ out) := by
  simp [readAllAux, h]

/-- A record dropped by the filter is invisible to the driver. -/
theorem readAllAux_skip {ε : Type} (fuel : Nat) (f : Filter ε) (r : Str)
    (rs : List Str) (se : Option ε) (b : Str) (n : Nat) (acc : Str)
    (h2 : (f r).2 = none) (h1 : (f r).1 = []) :
    readAllAux (fuel + 1) ⟨r :: rs, se, f, b, true⟩ n acc =
      readAllAux (fuel + 1) ⟨rs, se, f, b, true⟩ n acc := by
  simp only [readAllAux, read_skip f r rs se b n h2 h1]

/-! Total-output theorems for error-free streams. -/

/-- Draining an exhausted, error-free stream delivers exactly the
buffered bytes and then a clean end of stream. -/
theorem readAllAux_drain {ε : Type} (f : Filter ε) :
    ∀ fuel b acc n, 1 ≤ n → b.length + 1 ≤ fuel →
      readAllAux fuel ⟨[], none, f, b, false⟩ n acc = (acc ++ b, some GoErr.eof) := by
  intro fuel
  induction fuel with
  | zero => intro b acc n _ hfuel; omega
  | succ fuel ih =>
      intro b acc n hn hfuel
      cases b with
      | nil =>
          have hn0 : ¬ n = 0 := by omega
          rw [readAllAux_step_err fuel _ n acc [] GoErr.eof
            ⟨[], none, f, [], false⟩
            (by rw [read_eof f [] false n (fun h => rfl)]; simp [hn0])]
      | cons c cs =>
          rw [readAllAux_step_ok fuel _ n acc (List.take n (c :: cs))
            ⟨[], none, f, List.drop n (c :: cs), false⟩
            (by rw [read_drain f [] false (c :: cs) n (by simp) (fun h => rfl)]; simp)]
          rw [ih (List.drop n (c :: cs)) (acc ++ List.take n (c :: cs)) n hn
            (by simp only [List.length_drop, List.length_cons] at hfuel ⊢; omega)]
          rw [List.append_assoc, List.take_append_drop]

/-- Reading an error-free stream to completion delivers the carry-over
buffer followed by the concatenated filter outputs of all pending records,
then a clean end of stream — for every destination size of at least one
byte. -/
theorem readAllAux_noErr {ε : Type} (f : Filter ε) (hf : ∀ r, (f r).2 = none) :
    ∀ rs : List Str, ∀ fuel b acc n, 1 ≤ n →
      rs.length + b.length + (rs.map (fun r => ((f r).1).length)).sum + 1 ≤ fuel →
      readAllAux fuel ⟨rs, none, f, b, true⟩ n acc
        = (acc ++ b ++ (rs.map (fun r => (f r).1)).flatten, some GoErr.eof) := by
  intro rs
  induction rs with
  | nil =>
      intro fuel b acc n hn hfuel
      cases fuel with
      | zero => omega
      | succ fuel =>
          cases b with
          | nil =>
              have hn0 : ¬ n = 0 := by omega
              rw [readAllAux_step_err fuel _ n acc [] GoErr.eof
                ⟨[], none, f, [], false⟩
                (by rw [read_eof f [] true n (fun _ => rfl)]; simp [hn0])]
              simp
          | cons c cs =>
              rw [readAllAux_step_ok fuel _ n acc (List.take n (c :: cs))
                ⟨[], none, f, List.drop n (c :: cs), false⟩
                (by rw [read_drain f [] true (c :: cs) n (by simp) (fun _ => rfl)]; simp)]
              rw [readAllAux_drain f fuel (List.drop n (c :: cs))
                (acc ++ List.take n (c :: cs)) n hn
                (by simp only [List.length_drop, List.length_cons,
                      List.length_nil, List.map_nil, List.sum_nil] at hfuel ⊢; omega)]
              simp [List.append_assoc, List.take_append_drop]
  | cons r rs ih =>
      intro fuel b acc n hn hfuel
      by_cases h1 : (f r).1 = []
      · cases fuel with
        | zero => omega
        | succ fuel =>
            rw [readAllAux_skip fuel f r rs none b n acc (hf r) h1]
            rw [ih (fuel + 1) b acc n hn
              (by simp only [List.map_cons, List.sum_cons, h1, List.length_nil,
                    List.length_cons] at hfuel ⊢; omega)]
            simp [h1]
      · cases fuel with
        | zero => omega
        | succ fuel =>
            rw [readAllAux_step_ok fuel _ n acc (List.take n (b ++ (f r).1))
              ⟨rs, none, f, List.drop n (b ++ (f r).1), true⟩
              (read_acc f r rs none b n (hf r) h1)]
            rw [ih fuel (List.drop n (b ++ (f r).1))
              (acc ++ List.take n (b ++ (f r).1)) n hn
              (by
                have hs : 0 < ((f r).1).length := List.length_pos.mpr h1
                simp only [List.map_cons, List.sum_cons, List.length_cons,
                  List.length_drop, List.length_append] at hfuel ⊢
                omega)]
            have key : ∀ t : Str,
                List.take n (b ++ (f r).1) ++ (List.drop n (b ++ (f r).1) ++ t)
                  = b ++ ((f r).1 ++ t) := by
              intro t
              rw [← List.append_assoc, List.take_append_drop, List.append_assoc]
            simp [List.append_assoc, key]

/-- Reading a stream whose filter errors on record `rk`, with every
earlier record accepted or dropped and the destination large enough to
drain each accepted record in one call: the driver delivers the
concatenated outputs of the earlier records and then surfaces exactly the
filter's error, with zero bytes on the erroring call. -/
theorem readAllAux_filterErr {ε : Type} (f : Filter ε) (e : ε) :
    ∀ rs1 : List Str, ∀ rk : Str, ∀ rs2 : List Str, ∀ fuel n acc,
      (∀ r ∈ rs1, (f r).2 = none) → (f rk).2 = some e →
      (∀ r ∈ rs1, ((f r).1).length ≤ n) →
      rs1.length + 1 ≤ fuel →
      readAllAux fuel ⟨rs1 ++ rk :: rs2, none, f, [], true⟩ n acc
        = (acc ++ (rs1.map (fun r => (f r).1)).flatten, some (GoErr.user e)) := by
  intro rs1
  induction rs1 with
  | nil =>
      intro rk rs2 fuel n acc _ hk _ hfuel
      cases fuel with
      | zero => omega
      | succ fuel =>
          rw [List.nil_append]
          rw [readAllAux_step_err fuel _ n acc [] (GoErr.user e)
            ⟨rs2, none, f, [], true⟩ (read_filter_err f rk rs2 none [] n e hk)]
          simp
  | cons r rs1 ih =>
      intro rk rs2 fuel n acc h1s hk hlen hfuel
      have h2 : (f r).2 = none := h1s r (List.mem_cons_self _ _)
      by_cases h1 : (f r).1 = []
      · cases fuel with
        | zero => omega
        | succ fuel =>
            rw [List.cons_append,
              readAllAux_skip fuel f r (rs1 ++ rk :: rs2) none [] n acc h2 h1]
            rw [ih rk rs2 (fuel + 1) n acc
              (fun x hx => h1s x (List.mem_cons_of_mem _ hx)) hk
              (fun x hx => hlen x (List.mem_cons_of_mem _ hx))
              (by simp only [List.length_cons] at hfuel; omega)]
            simp [h1]
      · cases fuel with
        | zero => omega
        | succ fuel =>
            have hle : ((f r).1).length ≤ n := hlen r (List.mem_cons_self _ _)
            rw [List.cons_append]
            rw [readAllAux_step_ok fuel _ n acc (List.take n ([] ++ (f r).1))
              ⟨rs1 ++ rk :: rs2, none, f, List.drop n ([] ++ (f r).1), true⟩
              (read_acc f r (rs1 ++ rk :: rs2) none [] n h2 h1)]
            rw [List.nil_append, List.take_of_length_le hle,
              List.drop_eq_nil_of_le hle]
            rw [ih rk rs2 fuel n (acc ++ (f r).1)
              (fun x hx => h1s x (List.mem_cons_of_mem _ hx)) hk
              (fun x hx => hlen x (List.mem_cons_of_mem _ hx))
              (by simp only [List.length_cons] at hfuel; omega)]
            simp [List.append_assoc]

/-! Claim theorems. -/

/-- C1 (counterexample): a filter error is not a permanent terminal
condition.  Over the input `"a\nX\nb\n"` with a filter that errors on the
record `"X\n"`, the second Read surfaces the filter error, yet the third
Read pulls the next record from the source and delivers `"b\n"`. -/
theorem c1_counterexample :
    (let f : Filter Nat := fun r => if r = "X\n".toList then ([], some 7) else (r, none)
     let s0 := streamOf ("a\nX\nb\n".toList) none f
     let r1 := s0.read 10
     let r2 := r1.2.read 10
     let r3 := r2.2.read 10
     r1.1 = ("a\n".toList, none)
       ∧ r2.1 = ([], some (GoErr.user 7))
       ∧ r3.1 = ("b\n".toList, none)
       ∧ r2.2.existsData = true) := by
  decide

/-- C1 (amended): upstream end-of-data is permanently terminal — once
`existsData` is false, every later Read leaves it false and pulls no
record (the record list is untouched).  A filter error, by contrast, is
not sticky: `existsData` stays true and the next Read resumes pulling
(see the counterexample). -/
theorem c1_amended {ε : Type} (sr : StreamReader ε) (n : Nat)
    (h : sr.existsData = false) :
    ((sr.read n).2).existsData = false ∧ ((sr.read n).2).records = sr.records := by
  rcases sr with ⟨rs, se, f, b, ed⟩
  simp only at h
  subst h
  cases se with
  | some e => simp [StreamReader.read]
  | none =>
      by_cases hb : b = []
      · subst hb
        simp [StreamReader.read, bufferRead]
      · simp [StreamReader.read, bufferRead, hb]

/-- C1 (witness): the amended terminality statement at a concrete
exhausted stream. -/
theorem c1_amended_witness :
    (StreamReader.existsData ⟨[], none, NopFilter (ε := Nat), "xy".toList, false⟩ = false)
    ∧ ((StreamReader.read ⟨[], none, NopFilter (ε := Nat), "xy".toList, false⟩ 1).2).existsData = false
    ∧ ((StreamReader.read ⟨[], none, NopFilter (ε := Nat), "xy".toList, false⟩ 1).2).records
        = StreamReader.records ⟨[], none, NopFilter (ε := Nat), "xy".toList, false⟩ :=
  ⟨rfl,
   (c1_amended ⟨[], none, NopFilter (ε := Nat), "xy".toList, false⟩ 1 rfl).1,
   (c1_amended ⟨[], none, NopFilter (ε := Nat), "xy".toList, false⟩ 1 rfl).2⟩

/-- C2 (counterexample): a source error is not held back until the
carry-over buffer drains.  Over a source that delivers `"ab\n"` and then
fails, reading one byte at a time, the first Read delivers `'a'` leaving
`"b\n"` accepted but undelivered, and the second Read already returns the
source error — with the pending bytes still in the buffer, never
delivered. -/
theorem c2_counterexample :
    (let s0 := streamOf (ε := Nat) ("ab\n".toList) (some 5) NopFilter
     let r1 := s0.read 1
     let r2 := r1.2.read 1
     r1.1 = (['a'], none)
       ∧ r1.2.buffer = "b\n".toList
       ∧ r2.1 = ([], some (GoErr.user 5))
       ∧ r2.2.buffer = "b\n".toList) := by
  decide

/-- C2 (amended): once the scanner is exhausted with a recorded source
error, Read returns zero bytes and that error verbatim even when accepted
bytes remain in the carry-over buffer; the resulting state is a fixed
point, so the pending bytes are never delivered and every subsequent Read
returns the same source error. -/
theorem c2_amended {ε : Type} (f : Filter ε) (e : ε) (b : Str) (ed : Bool) (n : Nat) :
    StreamReader.read ⟨[], some e, f, b, ed⟩ n
      = (([], some (GoErr.user e)), ⟨[], some e, f, b, false⟩) :=
  read_source_err f e b ed n

/-- C3 (counterexample): the carry-over buffer can hold more than one
accepted record's remaining bytes, and Read pulls upstream even when
filtered data is already buffered.  Over `"ab\ncd\n"` with the identity
filter, reading one byte at a time: after the first Read the buffer holds
`"b\n"`, yet the second Read still pulls `"cd\n"`, after which the buffer
holds `"\ncd\n"` — 4 bytes, strictly longer than every record of the
input, so not the remaining bytes of a single record. -/
theorem c3_counterexample :
    (let s0 := streamOf (ε := Nat) ("ab\ncd\n".toList) none NopFilter
     let r1 := s0.read 1
     let r2 := r1.2.read 1
     r1.2.buffer = "b\n".toList
       ∧ r1.2.records = ["cd\n".toList]
       ∧ r2.2.records = []
       ∧ r2.2.buffer = "\ncd\n".toList
       ∧ (∀ r ∈ splitRecords ("ab\ncd\n".toList), r.length < r2.2.buffer.length)) := by
  decide

/-- C3 (amended): each Read call appends the filter output of at most one
newly accepted record to the carry-over buffer (the buffer after the call
is a tail of the old buffer extended by at most one record's output); but
Read pulls upstream whenever `existsData` holds, even when the buffer is
nonempty, so across calls the buffer can span the tail of one record plus
a whole further record. -/
theorem c3_amended {ε : Type} (sr : StreamReader ε) (n : Nat) :
    ∃ app, (app = [] ∨ ∃ r ∈ sr.records, app = (sr.filter r).1)
      ∧ ∃ k, ((sr.read n).2).buffer = (sr.buffer ++ app).drop k := by
  rcases sr with ⟨rs, se, f, b, ed⟩
  cases ed with
  | false =>
      refine ⟨[], Or.inl rfl, ?_⟩
      cases se with
      | some e => exact ⟨0, by simp [StreamReader.read]⟩
      | none =>
          by_cases hb : b = []
          · exact ⟨0, by subst hb; simp only [StreamReader.read, bufferRead]; simp; split <;> rfl⟩
          · exact ⟨n, by simp [StreamReader.read, bufferRead, hb]⟩
  | true =>
      refine ⟨(scanLoop f rs).2.2.1, scanLoop_app f rs, ?_⟩
      rcases hsl : scanLoop f rs with ⟨rs', ed', app, ferr⟩
      cases ferr with
      | some e =>
          exact ⟨0, by simp [StreamReader.read, hsl]⟩
      | none =>
          cases ed' with
          | true =>
              by_cases hb : b ++ app = []
              · exact ⟨0, by simp [StreamReader.read, hsl, bufferRead, hb]; split <;> rfl⟩
              · exact ⟨n, by simp [StreamReader.read, hsl, bufferRead, hb]⟩
          | false =>
              cases se with
              | some e => exact ⟨0, by simp [StreamReader.read, hsl]⟩
              | none =>
                  by_cases hb : b ++ app = []
                  · exact ⟨0, by simp [StreamReader.read, hsl, bufferRead, hb]; split <;> rfl⟩
                  · exact ⟨n, by simp [StreamReader.read, hsl, bufferRead, hb]⟩

/-- C4 (counterexample): buffer-size independence fails in the presence
of a filter error.  Over `"ab\nX\n"` with a filter erroring on `"X\n"`,
reading with a 10-byte destination yields the bytes `"ab\n"` before the
error, but reading one byte at a time yields only `"a"` before the same
error — the pending accepted bytes are cut off when the error surfaces. -/
theorem c4_counterexample :
    (let f : Filter Nat := fun r => if r = "X\n".toList then ([], some 7) else (r, none)
     (readAll 9 (streamOf ("ab\nX\n".toList) none f) 10).1
       ≠ (readAll 9 (streamOf ("ab\nX\n".toList) none f) 1).1) := by
  decide

/-- C4 (amended): buffer-size independence does hold whenever no filter
error and no source error occurs: for a never-erroring filter over a
cleanly terminating source, reading to completion with any two
destination sizes of at least one byte yields identical results (the same
bytes and a clean end of stream). -/
theorem c4_amended {ε : Type} (data : Str) (f : Filter ε)
    (hf : ∀ r, (f r).2 = none) (n1 n2 fuel1 fuel2 : Nat)
    (h1 : 1 ≤ n1) (h2 : 1 ≤ n2)
    (hfuel1 : (splitRecords data).length
      + ((splitRecords data).map (fun r => ((f r).1).length)).sum + 1 ≤ fuel1)
    (hfuel2 : (splitRecords data).length
      + ((splitRecords data).map (fun r => ((f r).1).length)).sum + 1 ≤ fuel2) :
    readAll fuel1 (streamOf data none f) n1 = readAll fuel2 (streamOf data none f) n2 := by
  unfold readAll streamOf
  rw [readAllAux_noErr f hf (splitRecords data) fuel1 [] [] n1 h1
      (by simp only [List.length_nil]; omega),
    readAllAux_noErr f hf (splitRecords data) fuel2 [] [] n2 h2
      (by simp only [List.length_nil]; omega)]

/-- C4 (witness): the amended independence statement at a concrete input
and filter. -/
theorem c4_amended_witness :
    (∀ r : Str, ((NopFilter (ε := Nat)) r).2 = none)
    ∧ 1 ≤ 1 ∧ 1 ≤ 5
    ∧ (splitRecords ("a\nb\n".toList)).length
        + ((splitRecords ("a\nb\n".toList)).map
            (fun r => (((NopFilter (ε := Nat)) r).1).length)).sum + 1 ≤ 12
    ∧ readAll 12 (streamOf ("a\nb\n".toList) none (NopFilter (ε := Nat))) 1
        = readAll 12 (streamOf ("a\nb\n".toList) none (NopFilter (ε := Nat))) 5 :=
  ⟨fun r => rfl, by decide, by decide, by decide,
   c4_amended ("a\nb\n".toList) NopFilter (fun r => rfl) 1 5 12 12
     (by decide) (by decide) (by decide) (by decide)⟩

/-- C5: with the identity filter, reading the stream to completion (with
any destination size of at least one byte) concatenates back to the
original input byte-for-byte, ending in a clean end of stream; every
record is nonempty, so in particular no empty trailing record is produced
after a final newline. -/
theorem c5_identity_roundtrip {ε : Type} (data : Str) (n fuel : Nat)
    (hn : 1 ≤ n)
    (hfuel : (splitRecords data).length + data.length + 1 ≤ fuel) :
    readAll fuel (streamOf data none (NopFilter (ε := ε))) n = (data, some GoErr.eof)
      ∧ ∀ r ∈ splitRecords data, r ≠ [] := by
  refine ⟨?_, splitRecords_ne_nil data⟩
  have hsum : ((splitRecords data).map
      (fun r => (((NopFilter (ε := ε)) r).1).length)).sum = data.length := by
    have h1 : (splitRecords data).map (fun r => (((NopFilter (ε := ε)) r).1).length)
        = (splitRecords data).map List.length := by
      simp [NopFilter]
    rw [h1, ← List.length_flatten, splitRecords_flatten]
  unfold readAll streamOf
  rw [readAllAux_noErr NopFilter (fun r => rfl) (splitRecords data) fuel [] [] n hn
    (by simp only [List.length_nil]; omega)]
  have hmap : (splitRecords data).map (fun r => ((NopFilter (ε := ε)) r).1)
      = splitRecords data := by
    simp [NopFilter]
  rw [hmap, splitRecords_flatten]
  simp

/-- C5 (witness): the identity round trip at the concrete input `"x\ny"`
read one byte at a time. -/
theorem c5_identity_roundtrip_witness :
    1 ≤ 1
    ∧ (splitRecords ("x\ny".toList)).length + ("x\ny".toList).length + 1 ≤ 10
    ∧ (readAll 10 (streamOf ("x\ny".toList) none (NopFilter (ε := Nat))) 1
        = ("x\ny".toList, some GoErr.eof)
      ∧ ∀ r ∈ splitRecords ("x\ny".toList), r ≠ []) :=
  ⟨by decide, by decide,
   c5_identity_roundtrip ("x\ny".toList) 1 10 (by decide) (by decide)⟩

/-- C6 (counterexample): with destinations smaller than the records, the
bytes of the accepted records before the erroring one are NOT all
delivered.  Over `"pq\nX\n"` with a filter erroring on `"X\n"`, reading
one byte at a time yields only `"p"` before the error, not `"pq\n"`. -/
theorem c6_counterexample :
    (let f : Filter Nat := fun r => if r = "X\n".toList then ([], some 7) else (r, none)
     readAll 9 (streamOf ("pq\nX\n".toList) none f) 1
       ≠ ("pq\n".toList, some (GoErr.user 7))) := by
  decide

/-- C6 (amended): for a filter that errors on record `rk` and does not
error on the records before it, provided each earlier accepted record's
output fits in the destination (so each Read call drains the buffer),
reading the stream yields exactly the concatenated outputs of the earlier
records followed by exactly the filter's error, surfaced with zero bytes
on the Read call that processes `rk`; no bytes from `rk` or later records
appear. -/
theorem c6_filter_error_prefix {ε : Type} (data : Str) (rs1 : List Str) (rk : Str)
    (rs2 : List Str) (f : Filter ε) (e : ε) (n fuel : Nat)
    (hsplit : splitRecords data = rs1 ++ rk :: rs2)
    (h1s : ∀ r ∈ rs1, (f r).2 = none)
    (hk : (f rk).2 = some e)
    (hlen : ∀ r ∈ rs1, ((f r).1).length ≤ n)
    (hfuel : rs1.length + 1 ≤ fuel) :
    readAll fuel (streamOf data none f) n
      = ((rs1.map (fun r => (f r).1)).flatten, some (GoErr.user e)) := by
  unfold readAll streamOf
  rw [hsplit, readAllAux_filterErr f e rs1 rk rs2 fuel n [] h1s hk hlen hfuel]
  simp

/-- C6 (witness): the amended statement at the concrete input `"ab\nX\n"`
with a filter erroring on `"X\n"` and a 5-byte destination. -/
theorem c6_filter_error_prefix_witness :
    (let f : Filter Nat := fun r => if r = "X\n".toList then ([], some 7) else (r, none)
     splitRecords ("ab\nX\n".toList) = ["ab\n".toList] ++ "X\n".toList :: []
       ∧ (∀ r ∈ ["ab\n".toList], (f r).2 = none)
       ∧ (f ("X\n".toList)).2 = some 7
       ∧ (∀ r ∈ ["ab\n".toList], ((f r).1).length ≤ 5)
       ∧ (["ab\n".toList] : List Str).length + 1 ≤ 9
       ∧ readAll 9 (streamOf ("ab\nX\n".toList) none f) 5
           = ((["ab\n".toList].map (fun r => (f r).1)).flatten, some (GoErr.user 7))) :=
  ⟨by decide, by decide, by decide, by decide, by decide,
   c6_filter_error_prefix ("ab\nX\n".toList) ["ab\n".toList] ("X\n".toList) []
     (fun r => if r = "X\n".toList then ([], some 7) else (r, none)) 7 5 9
     (by decide) (by decide) (by decide) (by decide) (by decide)⟩

/-- C7: constructing a stream from an absent source yields an absent
stream; every Read on the absent stream returns zero bytes and
`ErrNilReader` (and leaves the handle absent, so this holds for every
subsequent Read too); and `ErrNilReader` is never the end-of-stream
signal. -/
theorem c7_nil_stream (ε : Type) :
    (∀ f : Option (Filter ε), NewStreamReader none f = none)
    ∧ (∀ n : Nat, readOpt (ε := ε) none n = (([], some GoErr.errNilReader), none))
    ∧ (GoErr.errNilReader : GoErr ε) ≠ GoErr.eof :=
  ⟨fun _ => rfl, fun _ => rfl, fun h => GoErr.noConfusion h⟩

/-- C8: the JSON-line filter returns a record unchanged when its text is
a well-formed JSON value (surrounding whitespace ignored), returns the
empty string for any other record, and never returns an error; over the
input consisting of the records `\x7b"a":1\x7d`, `not json` and `[1,2]`
(each newline-terminated), the JSON-filtered stream produces exactly the
first and third records. -/
theorem c8_json_line_filter :
    (∀ (ε : Type) (s : Str),
      jsonLineFilter (ε := ε) s = (if Json.valid s then s else [], none))
    ∧ (∃ sr : StreamReader Nat,
        NewJSONFilterReadCloser
            (some (("\x7b\"a\":1\x7d\nnot json\n[1,2]\n".toList), none)) = some sr
          ∧ readAll 20 sr 100 = ("\x7b\"a\":1\x7d\n[1,2]\n".toList, some GoErr.eof)) :=
  ⟨fun ε s => by by_cases h : Json.valid s <;> simp [jsonLineFilter, h],
   ⟨streamOf ("\x7b\"a\":1\x7d\nnot json\n[1,2]\n".toList) none jsonLineFilter,
    rfl, by decide⟩⟩

/-- C9: whenever a Read call on a (non-absent) `StreamReader` returns a
non-nil error, it reports zero delivered bytes; bytes and an error are
never returned together. -/
theorem c9_error_zero_bytes {ε : Type} (sr : StreamReader ε) (n : Nat) (e : GoErr ε)
    (h : ((sr.read n).1).2 = some e) : ((sr.read n).1).1 = [] := by
  rcases sr with ⟨rs, se, f, b, ed⟩
  cases ed with
  | false =>
      cases se with
      | some e2 => simp [StreamReader.read]
      | none =>
          by_cases hb : b = []
          · subst hb
            simp [StreamReader.read, bufferRead]
            split <;> rfl
          · simp [StreamReader.read, bufferRead, hb] at h
  | true =>
      rcases hsl : scanLoop f rs with ⟨rs', ed', app, ferr⟩
      cases ferr with
      | some e2 => simp [StreamReader.read, hsl]
      | none =>
          cases ed' with
          | true =>
              by_cases hb : b ++ app = []
              · simp [StreamReader.read, hsl, bufferRead, hb]
                split <;> rfl
              · simp [StreamReader.read, hsl, bufferRead, hb] at h
          | false =>
              cases se with
              | some e2 => simp [StreamReader.read, hsl]
              | none =>
                  by_cases hb : b ++ app = []
                  · simp [StreamReader.read, hsl, bufferRead, hb]
                    split <;> rfl
                  · simp [StreamReader.read, hsl, bufferRead, hb] at h

/-- C9 (witness): a Read returning the end-of-stream error at a concrete
exhausted stream reports zero bytes. -/
theorem c9_error_zero_bytes_witness :
    (((streamOf ([] : Str) none (NopFilter (ε := Nat))).read 1).1).2 = some GoErr.eof
    ∧ (((streamOf ([] : Str) none (NopFilter (ε := Nat))).read 1).1).1 = [] :=
  ⟨by decide,
   c9_error_zero_bytes (streamOf ([] : Str) none (NopFilter (ε := Nat))) 1 GoErr.eof
     (by decide)⟩

/-- C10: a zero-length Read is not a no-op.  On a live stream it still
runs the scan/filter loop — advancing the record list and moving up to one
accepted record's output into the carry-over buffer — and (for a filter
that never errors, over a clean source) returns zero bytes with a nil
error; and on an exhausted stream with an empty buffer a zero-length Read
returns zero bytes with a nil error, not end-of-stream. -/
theorem c10_zero_length_read {ε : Type} :
    (∀ (f : Filter ε) (rs : List Str) (b : Str), (∀ r, (f r).2 = none) →
      (StreamReader.read ⟨rs, none, f, b, true⟩ 0).1 = ([], none)
      ∧ ((StreamReader.read ⟨rs, none, f, b, true⟩ 0).2).records = (scanLoop f rs).1
      ∧ ((StreamReader.read ⟨rs, none, f, b, true⟩ 0).2).buffer
          = b ++ (scanLoop f rs).2.2.1)
    ∧ (∀ f : Filter ε,
        StreamReader.read ⟨[], none, f, [], false⟩ 0
          = (([], none), ⟨[], none, f, [], false⟩)) := by
  constructor
  · intro f rs b hf
    have herr : (scanLoop f rs).2.2.2 = none := scanLoop_noErr f hf rs
    rcases hsl : scanLoop f rs with ⟨rs', ed', app, ferr⟩
    rw [hsl] at herr
    simp only at herr
    subst herr
    cases ed' with
    | true =>
        by_cases hb : b ++ app = []
        · refine ⟨?_, ?_, ?_⟩ <;> simp [StreamReader.read, hsl, bufferRead, hb]
        · refine ⟨?_, ?_, ?_⟩ <;> simp [StreamReader.read, hsl, bufferRead, hb]
    | false =>
        by_cases hb : b ++ app = []
        · refine ⟨?_, ?_, ?_⟩ <;> simp [StreamReader.read, hsl, bufferRead, hb]
        · refine ⟨?_, ?_, ?_⟩ <;> simp [StreamReader.read, hsl, bufferRead, hb]
  · intro f
    rfl

/-- C10 (witness): over the live stream holding the single record
`"ab\n"` with the identity filter, a zero-length Read returns zero bytes
with a nil error while consuming the record into the carry-over buffer. -/
theorem c10_zero_length_read_witness :
    (∀ r : Str, ((NopFilter (ε := Nat)) r).2 = none)
    ∧ (StreamReader.read ⟨splitRecords ("ab\n".toList), none, NopFilter (ε := Nat),
        [], true⟩ 0).1 = ([], none)
    ∧ ((StreamReader.read ⟨splitRecords ("ab\n".toList), none, NopFilter (ε := Nat),
        [], true⟩ 0).2).records
        = (scanLoop (NopFilter (ε := Nat)) (splitRecords ("ab\n".toList))).1
    ∧ ((StreamReader.read ⟨splitRecords ("ab\n".toList), none, NopFilter (ε := Nat),
        [], true⟩ 0).2).buffer
        = [] ++ (scanLoop (NopFilter (ε := Nat)) (splitRecords ("ab\n".toList))).2.2.1
    ∧ StreamReader.read ⟨[], none, NopFilter (ε := Nat), [], false⟩ 0
        = (([], none), ⟨[], none, NopFilter (ε := Nat), [], false⟩) :=
  ⟨fun _ => rfl,
   ((c10_zero_length_read (ε := Nat)).1 NopFilter (splitRecords ("ab\n".toList)) []
     (fun _ => rfl)).1,
   ((c10_zero_length_read (ε := Nat)).1 NopFilter (splitRecords ("ab\n".toList)) []
     (fun _ => rfl)).2.1,
   ((c10_zero_length_read (ε := Nat)).1 NopFilter (splitRecords ("ab\n".toList)) []
     (fun _ => rfl)).2.2,
   (c10_zero_length_read (ε := Nat)).2 NopFilter⟩

end GoSio
